import Mathlib

/-!
Verification development for the InverTrack financial projection core
(`src/App.tsx`): the portfolio Aggregator (`summary`, lines 74-81) and the
daily Projector (`dailyProjection`, lines 90-141), together with the
Gregorian calendar arithmetic the projector's salary schedule relies on.

Numbers are modelled exactly: the numeric type is a linear ordered field
`K` (instantiated at `ℚ` for executable checks and at `ℝ` where the real
power function `Math.pow(base, 1/365)` appears).  Event label strings built
with `formatCurrency` are modelled as structured labels (`ProjEvent`)
carrying the same data the rendered string carries.
-/

namespace InverTrack

/-- Calendar date (proleptic Gregorian, as JavaScript `Date` local-date
arithmetic behaves for the years in play): `month` ranges over 1..12 and
`day` over 1..`daysInMonth year month`. -/
structure CalDate where
  year : ℕ
  month : ℕ
  day : ℕ
  deriving DecidableEq, Repr

/-- Gregorian leap-year rule, as implemented by JavaScript `Date`. -/
def isLeap (y : ℕ) : Bool :=
  y % 4 == 0 && (y % 100 != 0 || y % 400 == 0)

/-- Number of days in a month: embeds
`new Date(year, month + 1, 0).getDate()` (App.tsx line 104). -/
def daysInMonth (y m : ℕ) : ℕ :=
  if m = 2 then (if isLeap y then 29 else 28)
  else if m = 4 ∨ m = 6 ∨ m = 9 ∨ m = 11 then 30
  else 31

/-- Successor day in the calendar. -/
def nextDay (d : CalDate) : CalDate :=
  if d.day < daysInMonth d.year d.month then ⟨d.year, d.month, d.day + 1⟩
  else if d.month < 12 then ⟨d.year, d.month + 1, 1⟩
  else ⟨d.year + 1, 1, 1⟩

/-- Date offset by `n` days: embeds
`currentDate.setDate(startDate.getDate() + i + 1)` (App.tsx lines 100-101). -/
def addDays (d : CalDate) : ℕ → CalDate
  | 0 => d
  | n + 1 => nextDay (addDays d n)

/-- Two-digit zero padding for ISO date rendering. -/
def pad2 (n : ℕ) : String :=
  (if n < 10 then "0" else "") ++ Nat.repr n

/-- Four-digit zero padding for ISO date rendering. -/
def pad4 (n : ℕ) : String :=
  (if n < 10 then "000" else if n < 100 then "00" else if n < 1000 then "0" else "")
    ++ Nat.repr n

/-- ISO `YYYY-MM-DD` rendering of a date: embeds
`currentDate.toISOString().split('T')[0]` (App.tsx line 116). -/
def toISO (d : CalDate) : String :=
  pad4 d.year ++ "-" ++ pad2 d.month ++ "-" ++ pad2 d.day

/-- An account (`Investment` in `src/types.ts`). -/
structure Investment (K : Type) where
  id : String
  name : String
  amount : K
  annualYield : K
  deriving DecidableEq

/-- A dated one-off income (`AdditionalIncome` in `src/types.ts`); `date`
is an ISO `YYYY-MM-DD` string. -/
structure AdditionalIncome (K : Type) where
  id : String
  description : String
  amount : K
  date : String
  deriving DecidableEq

/-- The derived portfolio summary (`PortfolioSummary` in `src/types.ts`). -/
structure PortfolioSummary (K : Type) where
  totalAmount : K
  weightedAverageYield : K
  monthlyIncome : K
  deriving DecidableEq

/-- An event label pushed onto a projection day's `events` list.  The code
renders each as a string (`Quincena: +<amount>` or `<description>: +<amount>`
via `formatCurrency`); the structured form carries the same data. -/
inductive ProjEvent (K : Type) where
  | salary (amount : K)
  | extra (description : String) (amount : K)
  deriving DecidableEq

/-- One row of the daily projection (App.tsx lines 131-138).  The code
stores `date` as a locale-formatted rendering of the calendar date; the
model keeps the date itself. -/
structure ProjectionDay (K : Type) where
  day : ℕ
  date : CalDate
  earned : K
  income : K
  events : List (ProjEvent K)
  total : K
  deriving DecidableEq

variable {K : Type} [LinearOrderedField K]

/-- The Aggregator: embeds the `summary` memo of App.tsx lines 74-81. -/
def summary (investments : List (Investment K)) : PortfolioSummary K :=
  let totalAmount := investments.foldl (fun sum inv => sum + inv.amount) 0
  let weightedSum := investments.foldl (fun sum inv => sum + inv.amount * inv.annualYield) 0
  let weightedAverageYield := if 0 < totalAmount then weightedSum / totalAmount else 0
  let monthlyIncome := totalAmount * (weightedAverageYield / 100) / 12
  { totalAmount := totalAmount
    weightedAverageYield := weightedAverageYield
    monthlyIncome := monthlyIncome }

/-- The Projector's annual-to-daily rate conversion: embeds App.tsx lines
93-95, `weightedAverageYield > 0 ? Math.pow(1 + wy / 100, 1 / 365) - 1 : 0`.
The power is the real power function. -/
noncomputable def dailyRate (weightedAverageYield : ℝ) : ℝ :=
  if 0 < weightedAverageYield then
    (1 + weightedAverageYield / 100) ^ ((1 : ℝ) / 365) - 1
  else 0

/-- The unguarded rate conversion of the single-portfolio variant
(`src/unnamed/part_001` lines 52-53): `Math.pow(1 + wy / 100, 1 / 365) - 1`
with no positivity guard. -/
noncomputable def dailyRateSimple (weightedAverageYield : ℝ) : ℝ :=
  (1 + weightedAverageYield / 100) ^ ((1 : ℝ) / 365) - 1

/-- The salary-injection condition of App.tsx line 110:
`dayOfMonth === 15 || dayOfMonth === monthDays`. -/
def salaryCond (d : CalDate) : Prop :=
  d.day = 15 ∨ d.day = daysInMonth d.year d.month

instance (d : CalDate) : Decidable (salaryCond d) := by
  unfold salaryCond
  exact inferInstance

/-- The event label an extra income pushes (App.tsx line 120): the
description, with the default label substituted when it is empty. -/
def extraLabel (x : AdditionalIncome K) : ProjEvent K :=
  ProjEvent.extra (if x.description = "" then "Ingreso Extra" else x.description) x.amount

/-- A day's injected income and event list (App.tsx lines 106-122): salary
first when `salaryCond` holds, then every extra income whose `date` string
equals the day's ISO date, in collection order. -/
def dayInjections (salary : K) (extraIncomes : List (AdditionalIncome K)) (d : CalDate) :
    K × List (ProjEvent K) :=
  let init : K × List (ProjEvent K) :=
    if salaryCond d then (salary, [ProjEvent.salary salary]) else (0, [])
  extraIncomes.foldl
    (fun acc x => if x.date = toISO d then (acc.1 + x.amount, acc.2 ++ [extraLabel x]) else acc)
    init

/-- One loop iteration of App.tsx lines 99-138: compute the calendar date,
the injections, apply them to capital before interest, then compound. -/
def stepDay (salary rate : K) (extraIncomes : List (AdditionalIncome K))
    (startDate : CalDate) (i : ℕ) (capital : K) : ProjectionDay K :=
  let currentDate := addDays startDate (i + 1)
  let inj := dayInjections salary extraIncomes currentDate
  let capitalAfterIncome := capital + inj.1
  let dailyEarned := capitalAfterIncome * rate
  { day := i + 1
    date := currentDate
    earned := dailyEarned
    income := inj.1
    events := inj.2
    total := capitalAfterIncome + dailyEarned }

/-- The projection loop (App.tsx lines 99-140), with the remaining
iteration count as fuel: each iteration emits its row and threads the
updated capital (the row's `total`). -/
def projectAux (salary rate : K) (extraIncomes : List (AdditionalIncome K))
    (startDate : CalDate) : ℕ → ℕ → K → List (ProjectionDay K)
  | 0, _, _ => []
  | n + 1, i, capital =>
    let d := stepDay salary rate extraIncomes startDate i capital
    d :: projectAux salary rate extraIncomes startDate n (i + 1) d.total

/-- The full projection loop from iteration 0 and the starting capital. -/
def project (salary rate : K) (extraIncomes : List (AdditionalIncome K))
    (startDate : CalDate) (capital : K) (projectionDays : ℕ) : List (ProjectionDay K) :=
  projectAux salary rate extraIncomes startDate projectionDays 0 capital

/-- The Projector tied to the Aggregator as in App.tsx lines 90-141:
starting capital is `summary.totalAmount` and the rate is `dailyRate` of
`summary.weightedAverageYield`. -/
noncomputable def dailyProjection (investments : List (Investment ℝ)) (salary : ℝ)
    (extraIncomes : List (AdditionalIncome ℝ)) (startDate : CalDate)
    (projectionDays : ℕ) : List (ProjectionDay ℝ) :=
  let s := summary investments
  project salary (dailyRate s.weightedAverageYield) extraIncomes startDate
    s.totalAmount projectionDays

/-- Placeholder row used as the default for out-of-range list access in
statements (all in-range accesses are forced by a length hypothesis). -/
def dummyDay : ProjectionDay K :=
  { day := 0, date := ⟨0, 1, 1⟩, earned := 0, income := 0, events := [], total := 0 }

/-- The `i`-th row (0-based) of the projection. -/
def projDay (salary rate : K) (extraIncomes : List (AdditionalIncome K))
    (startDate : CalDate) (capital : K) (projectionDays i : ℕ) : ProjectionDay K :=
  (project salary rate extraIncomes startDate capital projectionDays).getD i dummyDay

/-- The running capital entering iteration `i`: the starting capital for
`i = 0`, otherwise the previous row's `total`. -/
def prevTotal (capital : K) (rows : List (ProjectionDay K)) : ℕ → K
  | 0 => capital
  | j + 1 => (rows.getD j dummyDay).total

/-- Capital after `j` loop iterations starting from iteration index `i`
with capital `c`. -/
def capFrom (salary rate : K) (extraIncomes : List (AdditionalIncome K))
    (startDate : CalDate) : ℕ → K → ℕ → K
  | _, c, 0 => c
  | i, c, j + 1 =>
    capFrom salary rate extraIncomes startDate (i + 1)
      (stepDay salary rate extraIncomes startDate i c).total j

/-- The extra incomes whose date string matches a given ISO date. -/
def matchingExtras (extraIncomes : List (AdditionalIncome K)) (iso : String) :
    List (AdditionalIncome K) :=
  extraIncomes.filter fun x => x.date = iso

/-! ### Helper lemmas -/

theorem foldl_amount_eq_sum (l : List (Investment K)) (a : K) :
    l.foldl (fun sum inv => sum + inv.amount) a = a + (l.map fun inv => inv.amount).sum := by
  induction l generalizing a with
  | nil => simp
  | cons x l ih => simp [ih, add_assoc]

theorem foldl_weighted_eq_sum (l : List (Investment K)) (a : K) :
    l.foldl (fun sum inv => sum + inv.amount * inv.annualYield) a
      = a + (l.map fun inv => inv.amount * inv.annualYield).sum := by
  induction l generalizing a with
  | nil => simp
  | cons x l ih => simp [ih, add_assoc]

theorem summary_totalAmount (investments : List (Investment K)) :
    (summary investments).totalAmount = (investments.map fun inv => inv.amount).sum := by
  simp [summary, foldl_amount_eq_sum]

theorem summary_wavg (investments : List (Investment K)) :
    (summary investments).weightedAverageYield
      = if 0 < (investments.map fun inv => inv.amount).sum then
          (investments.map fun inv => inv.amount * inv.annualYield).sum
            / (investments.map fun inv => inv.amount).sum
        else 0 := by
  simp [summary, foldl_amount_eq_sum, foldl_weighted_eq_sum]

theorem foldl_extras_eq (iso : String) (l : List (AdditionalIncome K)) :
    ∀ (a : K) (ev : List (ProjEvent K)),
      l.foldl
        (fun acc x => if x.date = iso then (acc.1 + x.amount, acc.2 ++ [extraLabel x]) else acc)
        (a, ev)
      = (a + ((matchingExtras l iso).map fun x => x.amount).sum,
         ev ++ (matchingExtras l iso).map extraLabel) := by
  induction l with
  | nil => intro a ev; simp [matchingExtras]
  | cons x l ih =>
    intro a ev
    by_cases hx : x.date = iso
    · simp [matchingExtras, List.filter_cons, hx, ih, add_assoc]
    · simp [matchingExtras, List.filter_cons, hx, ih]

theorem dayInjections_eq (salary : K) (extraIncomes : List (AdditionalIncome K)) (d : CalDate) :
    dayInjections salary extraIncomes d
      = ((if salaryCond d then salary else 0)
           + ((matchingExtras extraIncomes (toISO d)).map fun x => x.amount).sum,
         (if salaryCond d then [ProjEvent.salary salary] else [])
           ++ (matchingExtras extraIncomes (toISO d)).map extraLabel) := by
  unfold dayInjections
  by_cases hc : salaryCond d
  · simp [hc, foldl_extras_eq]
  · simp [hc, foldl_extras_eq]

theorem projectAux_length (salary rate : K) (extraIncomes : List (AdditionalIncome K))
    (startDate : CalDate) :
    ∀ (n i : ℕ) (c : K), (projectAux salary rate extraIncomes startDate n i c).length = n := by
  intro n
  induction n with
  | zero => intro i c; rfl
  | succ n ih => intro i c; simp [projectAux, ih]

theorem project_length (salary rate : K) (extraIncomes : List (AdditionalIncome K))
    (startDate : CalDate) (c : K) (n : ℕ) :
    (project salary rate extraIncomes startDate c n).length = n :=
  projectAux_length salary rate extraIncomes startDate n 0 c

theorem projectAux_getD (salary rate : K) (extraIncomes : List (AdditionalIncome K))
    (startDate : CalDate) :
    ∀ (j n i : ℕ) (c : K), j < n →
      (projectAux salary rate extraIncomes startDate n i c).getD j dummyDay
        = stepDay salary rate extraIncomes startDate (i + j)
            (capFrom salary rate extraIncomes startDate i c j) := by
  intro j
  induction j with
  | zero =>
    intro n i c h
    match n, h with
    | n + 1, _ => simp [projectAux, capFrom]
  | succ j ih =>
    intro n i c h
    match n, h with
    | n + 1, h =>
      have hj : j < n := by omega
      have harith : i + 1 + j = i + (j + 1) := by omega
      simp only [projectAux, List.getD_cons_succ]
      rw [ih n (i + 1) (stepDay salary rate extraIncomes startDate i c).total hj,
        harith]
      rfl

theorem capFrom_succ (salary rate : K) (extraIncomes : List (AdditionalIncome K))
    (startDate : CalDate) :
    ∀ (j i : ℕ) (c : K),
      capFrom salary rate extraIncomes startDate i c (j + 1)
        = (stepDay salary rate extraIncomes startDate (i + j)
            (capFrom salary rate extraIncomes startDate i c j)).total := by
  intro j
  induction j with
  | zero => intro i c; rfl
  | succ j ih =>
    intro i c
    have harith : i + 1 + j = i + (j + 1) := by omega
    show capFrom salary rate extraIncomes startDate (i + 1)
        (stepDay salary rate extraIncomes startDate i c).total (j + 1) = _
    rw [ih (i + 1) (stepDay salary rate extraIncomes startDate i c).total, harith]
    rfl

theorem projDay_eq_stepDay (salary rate : K) (extraIncomes : List (AdditionalIncome K))
    (startDate : CalDate) (c : K) (n i : ℕ) (h : i < n) :
    projDay salary rate extraIncomes startDate c n i
      = stepDay salary rate extraIncomes startDate i
          (capFrom salary rate extraIncomes startDate 0 c i) := by
  unfold projDay project
  rw [projectAux_getD salary rate extraIncomes startDate i n 0 c h]
  simp

theorem prevTotal_eq_capFrom (salary rate : K) (extraIncomes : List (AdditionalIncome K))
    (startDate : CalDate) (c : K) (n i : ℕ) (h : i < n) :
    prevTotal c (project salary rate extraIncomes startDate c n) i
      = capFrom salary rate extraIncomes startDate 0 c i := by
  cases i with
  | zero => rfl
  | succ j =>
    show (List.getD _ j dummyDay).total = _
    unfold project
    rw [projectAux_getD salary rate extraIncomes startDate j n 0 c (by omega)]
    rw [capFrom_succ salary rate extraIncomes startDate j 0 c]

theorem stepDay_income (salary rate : K) (extraIncomes : List (AdditionalIncome K))
    (startDate : CalDate) (i : ℕ) (c : K) :
    (stepDay salary rate extraIncomes startDate i c).income
      = (if salaryCond (addDays startDate (i + 1)) then salary else 0)
        + ((matchingExtras extraIncomes (toISO (addDays startDate (i + 1)))).map
            fun x => x.amount).sum := by
  simp [stepDay, dayInjections_eq]

theorem stepDay_events (salary rate : K) (extraIncomes : List (AdditionalIncome K))
    (startDate : CalDate) (i : ℕ) (c : K) :
    (stepDay salary rate extraIncomes startDate i c).events
      = (if salaryCond (addDays startDate (i + 1)) then [ProjEvent.salary salary] else [])
        ++ (matchingExtras extraIncomes (toISO (addDays startDate (i + 1)))).map extraLabel := by
  simp [stepDay, dayInjections_eq]

theorem stepDay_total (salary rate : K) (extraIncomes : List (AdditionalIncome K))
    (startDate : CalDate) (i : ℕ) (c : K) :
    (stepDay salary rate extraIncomes startDate i c).total
      = (c + (stepDay salary rate extraIncomes startDate i c).income)
        + (c + (stepDay salary rate extraIncomes startDate i c).income) * rate := rfl

theorem sum_weighted_lower (m : K) (l : List (Investment K))
    (h0 : ∀ x ∈ l, 0 ≤ x.amount) (hm : ∀ x ∈ l, m ≤ x.annualYield) :
    m * (l.map fun inv => inv.amount).sum
      ≤ (l.map fun inv => inv.amount * inv.annualYield).sum := by
  induction l with
  | nil => simp
  | cons x l ih =>
    simp only [List.map_cons, List.sum_cons, mul_add]
    have h1 : m * x.amount ≤ x.amount * x.annualYield := by
      rw [mul_comm]
      exact mul_le_mul_of_nonneg_left (hm x (by simp)) (h0 x (by simp))
    have h2 := ih (fun y hy => h0 y (by simp [hy])) (fun y hy => hm y (by simp [hy]))
    exact add_le_add h1 h2

theorem sum_weighted_upper (M : K) (l : List (Investment K))
    (h0 : ∀ x ∈ l, 0 ≤ x.amount) (hM : ∀ x ∈ l, x.annualYield ≤ M) :
    (l.map fun inv => inv.amount * inv.annualYield).sum
      ≤ M * (l.map fun inv => inv.amount).sum := by
  induction l with
  | nil => simp
  | cons x l ih =>
    simp only [List.map_cons, List.sum_cons, mul_add]
    have h1 : x.amount * x.annualYield ≤ M * x.amount := by
      rw [mul_comm M x.amount]
      exact mul_le_mul_of_nonneg_left (hM x (by simp)) (h0 x (by simp))
    have h2 := ih (fun y hy => h0 y (by simp [hy])) (fun y hy => hM y (by simp [hy]))
    exact add_le_add h1 h2

/-! ### Claim theorems -/

/-- C1: for every (possibly empty) account list, the Aggregator returns
`totalAmount` equal to the sum of the amounts, `weightedAverageYield` equal
to the amount-weighted yield sum divided by `totalAmount` when the total is
positive and exactly `0` when the total is `0`, and `monthlyIncome` equal to
`totalAmount * (weightedAverageYield / 100) / 12`; being a Lean function it
is total over all inputs. -/
theorem summary_spec (investments : List (Investment K)) :
    (summary investments).totalAmount = (investments.map fun inv => inv.amount).sum
    ∧ (0 < (summary investments).totalAmount →
        (summary investments).weightedAverageYield
          = (investments.map fun inv => inv.amount * inv.annualYield).sum
              / (summary investments).totalAmount)
    ∧ ((summary investments).totalAmount = 0 →
        (summary investments).weightedAverageYield = 0)
    ∧ (summary investments).monthlyIncome
        = (summary investments).totalAmount
            * ((summary investments).weightedAverageYield / 100) / 12 := by
  refine ⟨summary_totalAmount investments, ?_, ?_, rfl⟩
  · intro h
    rw [summary_totalAmount] at h
    rw [summary_wavg, summary_totalAmount, if_pos h]
  · intro h
    rw [summary_totalAmount] at h
    rw [summary_wavg, if_neg]
    rw [h]
    exact lt_irrefl 0

/-- C1 witness: the theorem applied to a concrete two-account portfolio. -/
theorem summary_spec_witness :
    (summary [Investment.mk "1" "A" (100 : ℚ) 10, Investment.mk "2" "B" 300 6]).weightedAverageYield
      = ([Investment.mk "1" "A" (100 : ℚ) 10, Investment.mk "2" "B" 300 6].map
          fun inv => inv.amount * inv.annualYield).sum
        / (summary [Investment.mk "1" "A" (100 : ℚ) 10, Investment.mk "2" "B" 300 6]).totalAmount :=
  (summary_spec _).2.1 (by rw [summary_totalAmount]; norm_num)

/-- C9: the Aggregator returns `weightedAverageYield = 0` for every account
list whose total is zero or negative (the guard is `totalAmount > 0`), so no
division by a non-positive total occurs. -/
theorem wavg_zero_of_nonpos_total (investments : List (Investment K))
    (h : (summary investments).totalAmount ≤ 0) :
    (summary investments).weightedAverageYield = 0 := by
  rw [summary_totalAmount] at h
  rw [summary_wavg, if_neg (not_lt.mpr h)]

/-- C9 witness: a portfolio with negative total amount. -/
theorem wavg_zero_of_nonpos_total_witness :
    (summary [Investment.mk "1" "A" (-5 : ℚ) 10]).weightedAverageYield = 0 :=
  wavg_zero_of_nonpos_total _ (by rw [summary_totalAmount]; norm_num)

/-- C7 counterexample: a single account with amount `0` and yield `5` has
all amounts non-negative and every yield equal to `5`, yet the weighted
average yield is `0`, outside the yield range — the claim as stated fails
when the total amount is not positive. -/
theorem wavg_between_cex :
    (∀ x ∈ [Investment.mk "1" "A" (0 : ℚ) 5], 0 ≤ x.amount ∧ x.annualYield = 5)
    ∧ (summary [Investment.mk "1" "A" (0 : ℚ) 5]).weightedAverageYield = 0
    ∧ ¬ (5 ≤ (summary [Investment.mk "1" "A" (0 : ℚ) 5]).weightedAverageYield) := by
  have h2 : (summary [Investment.mk "1" "A" (0 : ℚ) 5]).weightedAverageYield = 0 := by
    simp [summary]
  refine ⟨?_, h2, ?_⟩
  · intro x hx
    simp only [List.mem_singleton] at hx
    subst hx
    exact ⟨le_refl 0, rfl⟩
  · rw [h2]
    norm_num

/-- C7 (amended: additionally requires a positive total amount): for
non-negative amounts and positive total, the weighted average yield lies
between any lower bound and any upper bound of the individual yields, in
particular between their minimum and maximum. -/
theorem wavg_between (investments : List (Investment K)) (m M : K)
    (h0 : ∀ x ∈ investments, 0 ≤ x.amount)
    (hpos : 0 < (summary investments).totalAmount)
    (hm : ∀ x ∈ investments, m ≤ x.annualYield)
    (hM : ∀ x ∈ investments, x.annualYield ≤ M) :
    m ≤ (summary investments).weightedAverageYield
    ∧ (summary investments).weightedAverageYield ≤ M := by
  rw [summary_totalAmount] at hpos
  rw [summary_wavg, if_pos hpos]
  constructor
  · rw [le_div_iff₀ hpos]
    exact sum_weighted_lower m investments h0 hm
  · rw [div_le_iff₀ hpos]
    have := sum_weighted_upper M investments h0 hM
    linarith

/-- C7 witness: a concrete two-account portfolio with yields in `[5, 8]`. -/
theorem wavg_between_witness :
    5 ≤ (summary [Investment.mk "1" "A" (100 : ℚ) 5, Investment.mk "2" "B" 300 8]).weightedAverageYield
    ∧ (summary [Investment.mk "1" "A" (100 : ℚ) 5, Investment.mk "2" "B" 300 8]).weightedAverageYield ≤ 8 :=
  wavg_between [Investment.mk "1" "A" (100 : ℚ) 5, Investment.mk "2" "B" 300 8] 5 8
    (by
      intro x hx
      simp only [List.mem_cons, List.mem_singleton] at hx
      rcases hx with h | h | h <;> first | subst h; norm_num | exact absurd h (by simp))
    (by rw [summary_totalAmount]; norm_num)
    (by
      intro x hx
      simp only [List.mem_cons, List.mem_singleton] at hx
      rcases hx with h | h | h <;> first | subst h; norm_num | exact absurd h (by simp))
    (by
      intro x hx
      simp only [List.mem_cons, List.mem_singleton] at hx
      rcases hx with h | h | h <;> first | subst h; norm_num | exact absurd h (by simp))

/-- C6: the projection has exactly `projectionDays` rows, the `day` field of
the `i`-th row (0-based) is `i + 1` — so day indices run `1..horizonDays` in
order with no gaps or duplicates — and a zero horizon yields the empty
list. -/
theorem projection_length_spec (salary rate c0 : K)
    (extraIncomes : List (AdditionalIncome K)) (startDate : CalDate) (n : ℕ) :
    (project salary rate extraIncomes startDate c0 n).length = n
    ∧ (∀ i, i < n → (projDay salary rate extraIncomes startDate c0 n i).day = i + 1)
    ∧ project salary rate extraIncomes startDate c0 0 = [] := by
  refine ⟨project_length salary rate extraIncomes startDate c0 n, ?_, rfl⟩
  intro i h
  rw [projDay_eq_stepDay salary rate extraIncomes startDate c0 n i h]
  rfl

/-- C6 witness: a concrete five-day projection. -/
theorem projection_length_spec_witness :
    (project (0 : ℚ) 0 [] ⟨2024, 1, 1⟩ 100 5).length = 5
    ∧ (projDay (0 : ℚ) 0 [] ⟨2024, 1, 1⟩ 100 5 2).day = 3 :=
  ⟨(projection_length_spec 0 0 100 [] ⟨2024, 1, 1⟩ 5).1,
   (projection_length_spec 0 0 100 [] ⟨2024, 1, 1⟩ 5).2.1 2 (by decide)⟩

/-- C3: on every projected day the injected income is applied to the running
capital before interest: `earned = (previousTotal + income) * rate` and
`total = previousTotal + income + earned`, where the running capital before
day 1 is the starting capital. -/
theorem projection_recurrence (salary rate c0 : K)
    (extraIncomes : List (AdditionalIncome K)) (startDate : CalDate) (n i : ℕ)
    (h : i < n) :
    (projDay salary rate extraIncomes startDate c0 n i).earned
      = (prevTotal c0 (project salary rate extraIncomes startDate c0 n) i
          + (projDay salary rate extraIncomes startDate c0 n i).income) * rate
    ∧ (projDay salary rate extraIncomes startDate c0 n i).total
      = prevTotal c0 (project salary rate extraIncomes startDate c0 n) i
        + (projDay salary rate extraIncomes startDate c0 n i).income
        + (projDay salary rate extraIncomes startDate c0 n i).earned := by
  rw [projDay_eq_stepDay salary rate extraIncomes startDate c0 n i h,
    prevTotal_eq_capFrom salary rate extraIncomes startDate c0 n i h]
  exact ⟨rfl, rfl⟩

/-- C3 witness: the recurrence applied on day 4 of a concrete projection. -/
theorem projection_recurrence_witness :
    (projDay (7 : ℚ) 2 [] ⟨2024, 1, 1⟩ 100 10 3).earned
      = (prevTotal 100 (project (7 : ℚ) 2 [] ⟨2024, 1, 1⟩ 100 10) 3
          + (projDay (7 : ℚ) 2 [] ⟨2024, 1, 1⟩ 100 10 3).income) * 2 :=
  (projection_recurrence 7 2 100 [] ⟨2024, 1, 1⟩ 10 3 (by decide)).1

/-- C4: on every projected day a salary event is on the day's event list if
and only if the day-of-month is 15 or the actual last day of that month (via
`daysInMonth`, so shorter months trigger on their own last day), and in that
case and only that case the salary is part of the day's injected income. -/
theorem salary_injection_iff (salary rate c0 : K)
    (extraIncomes : List (AdditionalIncome K)) (startDate : CalDate) (n i : ℕ)
    (h : i < n) :
    (ProjEvent.salary salary ∈ (projDay salary rate extraIncomes startDate c0 n i).events
       ↔ salaryCond (addDays startDate (i + 1)))
    ∧ (projDay salary rate extraIncomes startDate c0 n i).income
       = (if salaryCond (addDays startDate (i + 1)) then salary else 0)
         + ((matchingExtras extraIncomes (toISO (addDays startDate (i + 1)))).map
             fun x => x.amount).sum := by
  rw [projDay_eq_stepDay salary rate extraIncomes startDate c0 n i h]
  refine ⟨?_, stepDay_income salary rate extraIncomes startDate i _⟩
  rw [stepDay_events]
  constructor
  · intro hmem
    by_contra hc
    rw [if_neg hc, List.nil_append] at hmem
    rcases List.mem_map.mp hmem with ⟨x, _, hlab⟩
    simp [extraLabel] at hlab
  · intro hc
    rw [if_pos hc]
    exact List.mem_append_left _ (by simp)

/-- C4 witness: with start date 2024-01-01, day 14 of the projection lands
on January 15 and carries the salary event. -/
theorem salary_injection_iff_witness :
    ProjEvent.salary (500 : ℚ) ∈ (projDay (500 : ℚ) 0 [] ⟨2024, 1, 1⟩ 0 20 13).events :=
  ((salary_injection_iff 500 0 0 [] ⟨2024, 1, 1⟩ 20 13 (by decide)).1).mpr (by decide)

/-- C5: on every projected day, exactly the extra incomes whose `date`
string equals the day's ISO date contribute: the day's income is the salary
part plus the sum of the matching amounts, and the event list appends, after
the optional salary event, one label per matching income in collection
order, carrying its description (default label when empty) and amount. -/
theorem extra_income_injection (salary rate c0 : K)
    (extraIncomes : List (AdditionalIncome K)) (startDate : CalDate) (n i : ℕ)
    (h : i < n) :
    (projDay salary rate extraIncomes startDate c0 n i).income
      = (if salaryCond (addDays startDate (i + 1)) then salary else 0)
        + ((matchingExtras extraIncomes (toISO (addDays startDate (i + 1)))).map
            fun x => x.amount).sum
    ∧ (projDay salary rate extraIncomes startDate c0 n i).events
      = (if salaryCond (addDays startDate (i + 1)) then [ProjEvent.salary salary] else [])
        ++ (matchingExtras extraIncomes (toISO (addDays startDate (i + 1)))).map
            (fun x =>
              ProjEvent.extra
                (if x.description = "" then "Ingreso Extra" else x.description) x.amount) := by
  rw [projDay_eq_stepDay salary rate extraIncomes startDate c0 n i h]
  exact ⟨stepDay_income salary rate extraIncomes startDate i _,
    stepDay_events salary rate extraIncomes startDate i _⟩

/-- C5 witness: an extra income dated 2024-01-03 is injected on projection
day 2 (start date 2024-01-01) and only its amount makes up that day's
income. -/
theorem extra_income_injection_witness :
    (projDay (0 : ℚ) 0 [AdditionalIncome.mk "e1" "Bono" 500 "2024-01-03"]
        ⟨2024, 1, 1⟩ 0 10 1).income = 500 := by
  rw [(extra_income_injection 0 0 0 [AdditionalIncome.mk "e1" "Bono" 500 "2024-01-03"]
    ⟨2024, 1, 1⟩ 10 1 (by decide)).1]
  have hdate : toISO (addDays ⟨2024, 1, 1⟩ 2) = "2024-01-03" := by decide
  have hcond : ¬ salaryCond (addDays ⟨2024, 1, 1⟩ 2) := by decide
  rw [hdate, if_neg hcond]
  simp [matchingExtras]

/-- C10: on a day satisfying the salary condition the projector appends the
salary event unconditionally, even for a zero salary: with salary `0` and no
extra incomes, such a day's event list is non-empty while its income is
`0`. -/
theorem salary_event_even_when_zero (rate c0 : K) (startDate : CalDate) (n i : ℕ)
    (h : i < n) (hc : salaryCond (addDays startDate (i + 1))) :
    (projDay (0 : K) rate [] startDate c0 n i).events ≠ []
    ∧ (projDay (0 : K) rate [] startDate c0 n i).income = 0 := by
  rw [projDay_eq_stepDay 0 rate [] startDate c0 n i h]
  constructor
  · rw [stepDay_events, if_pos hc]
    simp [matchingExtras]
  · rw [stepDay_income, if_pos hc]
    simp [matchingExtras]

/-- C10 witness: day 14 of a zero-salary projection started 2024-01-01 lands
on January 15; its event list is non-empty while its income is `0`. -/
theorem salary_event_even_when_zero_witness :
    (projDay (0 : ℚ) 0 [] ⟨2024, 1, 1⟩ 100 20 13).events ≠ []
    ∧ (projDay (0 : ℚ) 0 [] ⟨2024, 1, 1⟩ 100 20 13).income = 0 :=
  salary_event_even_when_zero 0 100 ⟨2024, 1, 1⟩ 20 13 (by decide) (by decide)

/-- C2 counterexample: at `annualYieldPercent = -100` the code's guarded
rate is `0`, while the claimed formula gives `0 ^ (1/365) - 1 = -1`, so the
rate does not equal the formula for every input. -/
theorem dailyRate_formula_cex :
    dailyRate (-100) ≠ (1 + (-100 : ℝ) / 100) ^ ((1 : ℝ) / 365) - 1 := by
  have h1 : dailyRate (-100) = 0 := by
    unfold dailyRate
    rw [if_neg]
    norm_num
  have h2 : (1 + (-100 : ℝ) / 100) = 0 := by norm_num
  rw [h1, h2, Real.zero_rpow (by norm_num : (1 : ℝ) / 365 ≠ 0)]
  norm_num

/-- C2 (amended: the formula applies only to positive yields): for every
`annualYieldPercent > 0` the daily rate equals
`(1 + annualYieldPercent/100)^(1/365) - 1` — so 365 daily compounding
periods reproduce the stated annual yield, not a division by 365 — and for
every `annualYieldPercent ≤ 0` (in particular `0` or absent) the daily rate
is `0`. -/
theorem dailyRate_spec (y : ℝ) :
    (0 < y →
      dailyRate y = (1 + y / 100) ^ ((1 : ℝ) / 365) - 1
      ∧ (1 + dailyRate y) ^ (365 : ℕ) = 1 + y / 100)
    ∧ (y ≤ 0 → dailyRate y = 0) := by
  constructor
  · intro hy
    have hrate : dailyRate y = (1 + y / 100) ^ ((1 : ℝ) / 365) - 1 := by
      unfold dailyRate
      rw [if_pos hy]
    refine ⟨hrate, ?_⟩
    have hb : (0 : ℝ) ≤ 1 + y / 100 := by
      have := div_pos hy (show (0 : ℝ) < 100 by norm_num)
      linarith
    have hcollapse : (1 : ℝ) + ((1 + y / 100) ^ ((1 : ℝ) / 365) - 1)
        = (1 + y / 100) ^ ((1 : ℝ) / 365) := by ring
    rw [hrate, hcollapse, ← Real.rpow_natCast ((1 + y / 100) ^ ((1 : ℝ) / 365)) 365,
      ← Real.rpow_mul hb]
    have hexp : (1 : ℝ) / 365 * ((365 : ℕ) : ℝ) = 1 := by norm_num
    rw [hexp, Real.rpow_one]
  · intro hy
    unfold dailyRate
    rw [if_neg (not_lt.mpr hy)]

/-- C2 witness: at yield 12 the compounded daily rate reproduces 12% over
365 days, and at yield -3 the rate is 0. -/
theorem dailyRate_spec_witness :
    (1 + dailyRate 12) ^ (365 : ℕ) = 1 + 12 / 100 ∧ dailyRate (-3) = 0 :=
  ⟨((dailyRate_spec 12).1 (by norm_num)).2, (dailyRate_spec (-3)).2 (by norm_num)⟩

theorem capFrom_no_injection (rate : K) (startDate : CalDate) :
    ∀ (j i : ℕ) (c : K),
      capFrom 0 rate [] startDate i c j = c * (1 + rate) ^ j := by
  intro j
  induction j with
  | zero => intro i c; simp [capFrom]
  | succ j ih =>
    intro i c
    show capFrom 0 rate [] startDate (i + 1) (stepDay 0 rate [] startDate i c).total j = _
    rw [ih]
    have hinc : (stepDay 0 rate [] startDate i c).income = 0 := by
      rw [stepDay_income]
      simp [matchingExtras]
    have htot : (stepDay 0 rate [] startDate i c).total = c * (1 + rate) := by
      rw [stepDay_total, hinc]
      ring
    rw [htot]
    ring

/-- C8: for the single account `{amount: 1000, yield: 12}`, zero salary and
no extra incomes, the projection's daily rate is `1.12 ^ (1/365) - 1` and
the total of day 365 is exactly `1120` over the reals, for any start
date. -/
theorem scenario_thousand_at_twelve (startDate : CalDate) :
    dailyRate (summary [Investment.mk "1" "Cuenta" (1000 : ℝ) 12]).weightedAverageYield
      = (1.12 : ℝ) ^ ((1 : ℝ) / 365) - 1
    ∧ ((dailyProjection [Investment.mk "1" "Cuenta" (1000 : ℝ) 12] 0 [] startDate 365).getD
        364 dummyDay).total = 1120 := by
  have hwy : (summary [Investment.mk "1" "Cuenta" (1000 : ℝ) 12]).weightedAverageYield = 12 := by
    simp [summary]
  have htot : (summary [Investment.mk "1" "Cuenta" (1000 : ℝ) 12]).totalAmount = 1000 := by
    simp [summary]
  have hrate : dailyRate 12 = (1.12 : ℝ) ^ ((1 : ℝ) / 365) - 1 := by
    unfold dailyRate
    rw [if_pos (show (0 : ℝ) < 12 by norm_num)]
    norm_num
  refine ⟨by rw [hwy, hrate], ?_⟩
  show (projDay 0 (dailyRate (summary [Investment.mk "1" "Cuenta" (1000 : ℝ) 12]).weightedAverageYield)
      [] startDate (summary [Investment.mk "1" "Cuenta" (1000 : ℝ) 12]).totalAmount 365 364).total
    = 1120
  rw [hwy, htot, hrate]
  rw [projDay_eq_stepDay 0 ((1.12 : ℝ) ^ ((1 : ℝ) / 365) - 1) [] startDate 1000 365 364
    (by norm_num)]
  have hstep : (stepDay 0 ((1.12 : ℝ) ^ ((1 : ℝ) / 365) - 1) [] startDate 364
        (capFrom 0 ((1.12 : ℝ) ^ ((1 : ℝ) / 365) - 1) [] startDate 0 1000 364)).total
      = capFrom 0 ((1.12 : ℝ) ^ ((1 : ℝ) / 365) - 1) [] startDate 0 1000 365 := by
    have := capFrom_succ 0 ((1.12 : ℝ) ^ ((1 : ℝ) / 365) - 1) [] startDate 364 0 1000
    simpa using this.symm
  rw [hstep, capFrom_no_injection]
  have hcollapse : (1 : ℝ) + ((1.12 : ℝ) ^ ((1 : ℝ) / 365) - 1)
      = (1.12 : ℝ) ^ ((1 : ℝ) / 365) := by ring
  rw [hcollapse, ← Real.rpow_natCast ((1.12 : ℝ) ^ ((1 : ℝ) / 365)) 365,
    ← Real.rpow_mul (show (0 : ℝ) ≤ 1.12 by norm_num)]
  have hexp : (1 : ℝ) / 365 * ((365 : ℕ) : ℝ) = 1 := by norm_num
  rw [hexp, Real.rpow_one]
  norm_num

end InverTrack
